import Mathlib

/-!
Verification of the History-Brush Masking Engine of this repository
(src/components/MaskingCanvas.tsx).

The component's mutable refs (canvas raster, history stack, redo stack,
drawing flags) are modelled as an explicit state record `MaskState`.
The React callbacks `onUndoStateChange` / `onRedoStateChange` are modelled
by the `canUndo` / `canRedo` fields (the last emitted values), and
`onMaskChange` by the `maskChanges` log (most recent payload first; a PNG
data URL is a lossless encoding of the raster it carries, so a payload is
represented by the raster itself).  The source keeps its stacks as JS
arrays pushed/popped at the end; here a stack is a `List` whose head is
the most recently pushed element.

The pixel geometry of `draw` (Math.hypot / Math.atan2 / the dab loop and
the radial-gradient alpha profile) is modelled over `ℝ`, with `Complex.arg`
playing the role of `Math.atan2(dy, dx)`.
-/

namespace Vixel

/-- One RGBA pixel of an ImageData buffer (byte channels 0..255). -/
structure Pixel where
  r : ℕ
  g : ℕ
  b : ℕ
  a : ℕ
deriving DecidableEq

/-- A pixel buffer as returned by `ctx.getImageData` (row-major, w*h pixels). -/
abbrev ImageData := List Pixel

/-- Fully opaque black, the value of every pixel after
`ctx.fillStyle = 'black'; ctx.fillRect(0, 0, width, height)`. -/
def blackPixel : Pixel := ⟨0, 0, 0, 255⟩

/-- The raster produced by the initialisation effect's clearRect + black
fillRect over the whole w × h canvas (MaskingCanvas.tsx lines 90-93). -/
def blankRaster (w h : ℕ) : ImageData := List.replicate (w * h) blackPixel

/-- State of one MaskingCanvas instance: the refs `canvasRef` (its pixel
content), `historyStackRef`, `redoStackRef`, `isDrawing`, `lastPoint`,
plus the last values handed to the `onUndoStateChange` / `onRedoStateChange`
callbacks and the log of `onMaskChange` payloads (most recent first). -/
structure MaskState where
  raster : ImageData
  history : List ImageData
  redoStack : List ImageData
  canUndo : Bool
  canRedo : Bool
  isDrawing : Bool
  lastPoint : Option (ℚ × ℚ)
  maskChanges : List ImageData
deriving DecidableEq

/-- `saveState` (MaskingCanvas.tsx lines 36-47): empties the redo stack and
emits `canRedo=false` ("A new action invalidates the redo history"), then
snapshots the raster (`getImageData` returns a fresh copy) onto the history
stack and emits `canUndo = (history length > 1)`. -/
def saveState (s : MaskState) : MaskState :=
  let imageData := s.raster
  { s with
    redoStack := [],
    canRedo := false,
    history := imageData :: s.history,
    canUndo := decide (1 < (imageData :: s.history).length) }

/-- `undo` (MaskingCanvas.tsx lines 50-65): if the history stack holds more
than one entry, pop the current state onto the redo stack, repaint the
canvas with the new top (`putImageData`), fire `onMaskChange` with its
encoded form, and emit the new `canUndo` / `canRedo`; otherwise do nothing.
A history of length > 1 is exactly one matching `current :: prev :: rest`. -/
def undo (s : MaskState) : MaskState :=
  match s.history with
  | currentState :: prevState :: rest =>
      { s with
        history := prevState :: rest,
        redoStack := currentState :: s.redoStack,
        raster := prevState,
        maskChanges := prevState :: s.maskChanges,
        canUndo := decide (1 < (prevState :: rest).length),
        canRedo := decide (0 < (currentState :: s.redoStack).length) }
  | _ => s

/-- `redo` (MaskingCanvas.tsx lines 66-80): if the redo stack is nonempty,
pop its top back onto the history stack, repaint the canvas with it, fire
`onMaskChange`, and emit the new `canUndo` / `canRedo`; otherwise nothing. -/
def redo (s : MaskState) : MaskState :=
  match s.redoStack with
  | nextState :: rest =>
      { s with
        redoStack := rest,
        history := nextState :: s.history,
        raster := nextState,
        maskChanges := nextState :: s.maskChanges,
        canUndo := decide (1 < (nextState :: s.history).length),
        canRedo := decide (0 < rest.length) }
  | [] => s

/-- `endDrawing` (MaskingCanvas.tsx lines 132-141): returns immediately when
no stroke is active; otherwise clears the drawing flags, fires
`onMaskChange` with the current raster's encoding, and runs `saveState`.
(The `onDrawEnd` notification carries no data and is not tracked.) -/
def endDrawing (s : MaskState) : MaskState :=
  if s.isDrawing = false then s
  else
    let s1 := { s with isDrawing := false, lastPoint := none }
    saveState { s1 with maskChanges := s1.raster :: s1.maskChanges }

/-- The initialisation / reset effect (MaskingCanvas.tsx lines 83-103), run
whenever width, height or the reset token change: paints the whole canvas
opaque black, empties both stacks, pushes the blank raster as the sole
history entry and emits `canUndo=false`, `canRedo=false`.  The drawing
flags and the `onMaskChange` log are untouched by this effect. -/
def initCanvas (w h : ℕ) (s : MaskState) : MaskState :=
  let initialImageData := blankRaster w h
  { s with
    raster := initialImageData,
    history := [initialImageData],
    redoStack := [],
    canUndo := false,
    canRedo := false }

/-- One whole committed stroke as the history layer sees it: pointer-down
sets `isDrawing`, the move events mutate the raster (their pixel effect is
abstracted as `effect`; its geometry is modelled separately by `drawDabs`),
and pointer-up/leave runs `endDrawing`. -/
def commitStroke (effect : ImageData → ImageData) (s : MaskState) : MaskState :=
  endDrawing { s with raster := effect s.raster, isDrawing := true }

/-- A sequence of committed strokes, oldest first. -/
def applyCommits (fs : List (ImageData → ImageData)) (s : MaskState) : MaskState :=
  fs.foldl (fun t f => commitStroke f t) s

/-- A freshly mounted component after its first initialisation effect. -/
def initState (w h : ℕ) : MaskState :=
  initCanvas w h ⟨[], [], [], false, false, false, none, []⟩

/-- The geometry the DOM supplies to `getCoords`: whether `canvasRef.current`
is non-null, the `getBoundingClientRect` of the canvas element, and the
canvas's native `width` / `height` attributes. -/
structure CanvasEnv where
  mounted : Bool
  rectLeft : ℚ
  rectTop : ℚ
  rectWidth : ℚ
  rectHeight : ℚ
  width : ℚ
  height : ℚ
deriving DecidableEq

/-- `getCoords` (MaskingCanvas.tsx lines 105-123): null iff the canvas ref is
null; otherwise maps the client position into native canvas pixels by the
displayed-offset times native/displayed scale.  There is no zero-size
check: with `rectWidth = 0` JS computes `canvas.width / 0 = Infinity`,
while `ℚ` division by zero yields 0 — in either semantics the mapping
still returns a value rather than null. -/
def getCoords (env : CanvasEnv) (clientX clientY : ℚ) : Option (ℚ × ℚ) :=
  if env.mounted = false then none
  else
    some ((clientX - env.rectLeft) * (env.width / env.rectWidth),
          (clientY - env.rectTop) * (env.height / env.rectHeight))

/-- The control flow of `draw` (MaskingCanvas.tsx lines 143-175): a no-op
unless a stroke is active and both the context (available iff mounted,
i.e. iff `getCoords` succeeds) and the current and last points exist;
otherwise it stamps dabs onto the raster (pixel effect abstracted as
`effect`, its geometry modelled by `drawDabs`) and advances `lastPoint`. -/
def drawEvent (effect : ImageData → ImageData) (env : CanvasEnv)
    (clientX clientY : ℚ) (s : MaskState) : MaskState :=
  if s.isDrawing = false then s
  else
    match getCoords env clientX clientY, s.lastPoint with
    | some p, some _ => { s with raster := effect s.raster, lastPoint := some p }
    | _, _ => s

/-- `startDrawing` (MaskingCanvas.tsx lines 125-130): raises the drawing
flag, records the mapped point as `lastPoint`, and immediately calls
`draw` on the same event. -/
def startDrawing (effect : ImageData → ImageData) (env : CanvasEnv)
    (clientX clientY : ℚ) (s : MaskState) : MaskState :=
  drawEvent effect env clientX clientY
    { s with isDrawing := true, lastPoint := getCoords env clientX clientY }

/-- The synchronisation invariant the engine maintains at every committed
state: the raster equals the history top, and the last emitted `canUndo` /
`canRedo` reflect the stack sizes. -/
def Consistent (s : MaskState) : Prop :=
  s.history.head? = some s.raster ∧
  s.canUndo = decide (1 < s.history.length) ∧
  s.canRedo = decide (0 < s.redoStack.length)

/-- The dab spacing `step = Math.min(brushSize / 4, 6)`
(MaskingCanvas.tsx line 157). -/
noncomputable def strokeStep (brushSize : ℝ) : ℝ := min (brushSize / 4) 6

/-- The travelled-length parameters of the loop
`for (let i = 0; i < distance; i += step)` (line 159): `i` takes the values
`0, step, 2·step, …` while `i < distance`, i.e. `j · step` for every
`j < ⌈distance / step⌉₊` (for a positive step; see `dabTs_getElem`). -/
noncomputable def dabTs (distance step : ℝ) : List ℝ :=
  (List.range ⌈distance / step⌉₊).map (fun j : ℕ => (j : ℝ) * step)

/-- The centres of the dabs one `draw` call stamps between the last point
and the current point (MaskingCanvas.tsx lines 152-172): distance by
`Math.hypot`, direction by `Math.atan2(dy, dx)` — which is `Complex.arg`
of `dx + dy·i` — and one dab at
`last + (cos θ, sin θ) · i` per loop value `i`. -/
noncomputable def drawDabs (last cur : ℝ × ℝ) (brushSize : ℝ) : List (ℝ × ℝ) :=
  let dx := cur.1 - last.1
  let dy := cur.2 - last.2
  let distance := Real.sqrt (dx ^ 2 + dy ^ 2)
  let angle := Complex.arg ⟨dx, dy⟩
  (dabTs distance (strokeStep brushSize)).map
    (fun i => (last.1 + Real.cos angle * i, last.2 + Real.sin angle * i))

/-- `hardnessStop = Math.max(0.01, brushHardness / 100)` (line 155). -/
noncomputable def hardnessStop (hardness : ℝ) : ℝ := max 0.01 (hardness / 100)

/-- The source alpha a dab contributes at distance `dist` from its centre
(lines 163-166): the radial gradient has colour stops fully opaque at
offsets 0 and `hardnessStop` and fully transparent at offset 1, with
linear interpolation between consecutive stops, and the filled arc clips
it to radius `brushSize / 2`. -/
noncomputable def gradientAlpha (brushSize hardness dist : ℝ) : ℝ :=
  if dist ≤ hardnessStop hardness * (brushSize / 2) then 1
  else if dist < brushSize / 2 then
    (brushSize / 2 - dist) / (brushSize / 2 - hardnessStop hardness * (brushSize / 2))
  else 0

/-- Per-pixel alpha of the `destination-out` composite rule selected for
erase mode (line 150): the destination keeps `1 - srcAlpha` of its alpha
(Porter-Duff destination-out, alphas scaled to [0,1]). -/
noncomputable def destOut (dstAlpha srcAlpha : ℝ) : ℝ := dstAlpha * (1 - srcAlpha)

/-- The alpha of one pixel after an erase-mode stroke whose successive dab
centres lie at the given distances from that pixel. -/
noncomputable def eraseStrokeAlpha (brushSize hardness : ℝ) (dists : List ℝ)
    (a : ℝ) : ℝ :=
  dists.foldl (fun acc dist => destOut acc (gradientAlpha brushSize hardness dist)) a

/-! ### Stack algebra of undo / redo -/

theorem undo_of_two (s : MaskState) (a b : ImageData) (l : List ImageData)
    (h : s.history = a :: b :: l) :
    undo s = { s with
      history := b :: l,
      redoStack := a :: s.redoStack,
      raster := b,
      maskChanges := b :: s.maskChanges,
      canUndo := decide (1 < (b :: l).length),
      canRedo := true } := by
  unfold undo
  rw [h]
  simp

theorem undo_of_short (s : MaskState) (h : s.history.length ≤ 1) : undo s = s := by
  unfold undo
  rcases hh : s.history with _ | ⟨a, _ | ⟨b, l⟩⟩
  · rfl
  · rfl
  · rw [hh] at h; simp at h

theorem redo_of_cons (s : MaskState) (a : ImageData) (rest : List ImageData)
    (h : s.redoStack = a :: rest) :
    redo s = { s with
      redoStack := rest,
      history := a :: s.history,
      raster := a,
      maskChanges := a :: s.maskChanges,
      canUndo := decide (1 < (a :: s.history).length),
      canRedo := decide (0 < rest.length) } := by
  unfold redo
  rw [h]

theorem redo_of_nil (s : MaskState) (h : s.redoStack = []) : redo s = s := by
  unfold redo
  rw [h]

theorem consistent_initCanvas (w h : ℕ) (s : MaskState) :
    Consistent (initCanvas w h s) := by
  simp [initCanvas, Consistent]

theorem consistent_commitStroke (f : ImageData → ImageData) (s : MaskState) :
    Consistent (commitStroke f s) := by
  simp [commitStroke, endDrawing, saveState, Consistent]

theorem consistent_undo (s : MaskState) (hc : Consistent s) :
    Consistent (undo s) := by
  rcases hh : s.history with _ | ⟨a, _ | ⟨b, l⟩⟩
  · rwa [undo_of_short s (by simp [hh])]
  · rwa [undo_of_short s (by simp [hh])]
  · rw [undo_of_two s a b l hh]
    simp [Consistent]

theorem consistent_applyCommits (fs : List (ImageData → ImageData))
    (s : MaskState) (hc : Consistent s) : Consistent (applyCommits fs s) := by
  induction fs generalizing s with
  | nil => exact hc
  | cons f fs ih => exact ih (commitStroke f s) (consistent_commitStroke f s)

theorem length_applyCommits (fs : List (ImageData → ImageData)) (s : MaskState) :
    (applyCommits fs s).history.length = s.history.length + fs.length := by
  induction fs generalizing s with
  | nil => rfl
  | cons f fs ih =>
    have h1 : (commitStroke f s).history.length = s.history.length + 1 := rfl
    have h2 : applyCommits (f :: fs) s = applyCommits fs (commitStroke f s) := rfl
    rw [h2, ih, h1]
    simp [List.length_cons]
    omega

theorem roundTrip (k : ℕ) :
    ∀ s : MaskState, Consistent s → k + 1 ≤ s.history.length →
      (redo^[k] (undo^[k] s)).raster = s.raster ∧
      (redo^[k] (undo^[k] s)).history = s.history ∧
      (redo^[k] (undo^[k] s)).redoStack = s.redoStack ∧
      Consistent (redo^[k] (undo^[k] s)) := by
  induction k with
  | zero =>
    intro s hc _
    exact ⟨rfl, rfl, rfl, hc⟩
  | succ k ih =>
    intro s hc hlen
    rcases hh : s.history with _ | ⟨a, _ | ⟨b, l⟩⟩
    · rw [hh] at hlen; simp at hlen
    · rw [hh] at hlen; simp at hlen
    · have hu := undo_of_two s a b l hh
      have hconsU : Consistent (undo s) := consistent_undo s hc
      have hlenU : k + 1 ≤ (undo s).history.length := by
        rw [hu]
        rw [hh] at hlen
        simp at hlen ⊢
        omega
      obtain ⟨hr, hhist, hrs, hcons⟩ := ih (undo s) hconsU hlenU
      have e1 : undo^[k + 1] s = undo^[k] (undo s) :=
        Function.iterate_succ_apply undo k s
      have e2 : redo^[k + 1] (undo^[k] (undo s))
          = redo (redo^[k] (undo^[k] (undo s))) :=
        Function.iterate_succ_apply' redo k _
      have htr : (redo^[k] (undo^[k] (undo s))).redoStack = a :: s.redoStack := by
        rw [hrs, hu]
      have hre := redo_of_cons _ a s.redoStack htr
      have hhist' : (redo^[k] (undo^[k] (undo s))).history = b :: l := by
        rw [hhist, hu]
      have hras : a = s.raster := by
        have := hc.1
        rw [hh] at this
        simpa using this
      rw [e1, e2, hre]
      refine ⟨hras, ?_, rfl, ?_⟩
      · simp [hhist', hh]
      · refine ⟨?_, ?_, ?_⟩
        · simp [hras]
        · simp
        · simp

/-! ### Claim theorems on the history stack machine -/

/-- C1: for every sequence of N committed strokes followed by k Undo calls
(k ≤ N) followed by k Redo calls, the resulting canvas raster is
pixel-identical to the raster immediately before the Undos began. -/
theorem undo_redo_roundtrip (w h : ℕ) (fs : List (ImageData → ImageData))
    (k : ℕ) (hk : k ≤ fs.length) :
    (redo^[k] (undo^[k] (applyCommits fs (initState w h)))).raster
      = (applyCommits fs (initState w h)).raster := by
  have hc : Consistent (initState w h) := consistent_initCanvas w h _
  refine (roundTrip k _ (consistent_applyCommits fs _ hc) ?_).1
  rw [length_applyCommits]
  have h1 : (initState w h).history.length = 1 := rfl
  omega

/-- Witness for C1 at one committed white stroke, one Undo, one Redo on a
1-by-1 canvas. -/
theorem undo_redo_roundtrip_witness :
    1 ≤ ([fun _ => [Pixel.mk 255 255 255 255]] : List (ImageData → ImageData)).length ∧
    (redo^[1] (undo^[1] (applyCommits [fun _ => [Pixel.mk 255 255 255 255]]
        (initState 1 1)))).raster
      = (applyCommits [fun _ => [Pixel.mk 255 255 255 255]] (initState 1 1)).raster :=
  ⟨by decide, undo_redo_roundtrip 1 1 [fun _ => [Pixel.mk 255 255 255 255]] 1 (by decide)⟩

/-- C2: every stroke commit (saveState, run at stroke end) empties the redo
stack and emits canRedo=false, so after any Undo followed by a newly
committed stroke, a subsequent Redo() is a no-op and canRedo stays false. -/
theorem commit_clears_redo (s : MaskState) (f : ImageData → ImageData) :
    (saveState s).redoStack = [] ∧
    (saveState s).canRedo = false ∧
    (commitStroke f s).redoStack = [] ∧
    (commitStroke f s).canRedo = false ∧
    redo (commitStroke f (undo s)) = commitStroke f (undo s) ∧
    (redo (commitStroke f (undo s))).canRedo = false := by
  refine ⟨rfl, rfl, rfl, rfl, ?_, ?_⟩
  · exact redo_of_nil _ rfl
  · rw [redo_of_nil _ rfl]
    rfl

/-- C4: Initialize/Reset clears both stacks regardless of prior depth, fills
the raster fully opaque black, pushes that blank raster as the sole
history entry, leaves the redo stack empty, and emits canUndo=false and
canRedo=false. -/
theorem initCanvas_spec (w h : ℕ) (s : MaskState) :
    (initCanvas w h s).history = [blankRaster w h] ∧
    (initCanvas w h s).redoStack = [] ∧
    (initCanvas w h s).raster = blankRaster w h ∧
    (initCanvas w h s).canUndo = false ∧
    (initCanvas w h s).canRedo = false ∧
    (initCanvas w h s).raster.length = w * h ∧
    (∀ px ∈ (initCanvas w h s).raster, px = blackPixel) := by
  refine ⟨rfl, rfl, rfl, rfl, rfl, by simp [initCanvas, blankRaster], ?_⟩
  intro px hpx
  exact List.eq_of_mem_replicate hpx

/-- Witness for C4: the single pixel of a reset 1-by-1 canvas is opaque
black. -/
theorem initCanvas_spec_witness :
    blackPixel ∈ (initCanvas 1 1 (initState 1 1)).raster ∧
    blackPixel = blackPixel :=
  ⟨by decide, (initCanvas_spec 1 1 (initState 1 1)).2.2.2.2.2.2 blackPixel (by decide)⟩

/-- C5: Undo() is a no-op (state fully unchanged, so no mask notification)
when the history stack has at most one entry; otherwise it moves the top
snapshot onto the redo stack, restores the raster to the new top,
notifies the mask observer with the restored raster, and emits
canUndo = (stack size > 1) and canRedo = true.  Symmetrically Redo() is
a no-op when the redo stack is empty. -/
theorem undo_redo_spec (s : MaskState) :
    (s.history.length ≤ 1 → undo s = s) ∧
    (∀ current prev rest, s.history = current :: prev :: rest →
      undo s = { s with
        history := prev :: rest,
        redoStack := current :: s.redoStack,
        raster := prev,
        maskChanges := prev :: s.maskChanges,
        canUndo := decide (1 < (prev :: rest).length),
        canRedo := true }) ∧
    (s.redoStack = [] → redo s = s) :=
  ⟨undo_of_short s, fun a b l hl => undo_of_two s a b l hl, redo_of_nil s⟩

/-- Witness for C5: Undo on a freshly initialised canvas (single history
entry) changes nothing. -/
theorem undo_redo_spec_witness :
    (initState 1 1).history.length ≤ 1 ∧ undo (initState 1 1) = initState 1 1 :=
  ⟨by decide, (undo_redo_spec (initState 1 1)).1 (by decide)⟩

/-- C10: ending an active stroke commits unconditionally: even when the
stroke mutated no pixels, endDrawing still fires onMaskChange, pushes a
snapshot of the current raster (a duplicate of the history top when the
raster is synchronised with it), empties the redo stack (so Redo becomes
a no-op), emits canRedo=false, and emits canUndo=true once the stack
holds more than one entry. -/
theorem endDrawing_commits (s : MaskState) :
    (endDrawing { s with isDrawing := true }).maskChanges
      = s.raster :: s.maskChanges ∧
    (endDrawing { s with isDrawing := true }).history = s.raster :: s.history ∧
    (endDrawing { s with isDrawing := true }).redoStack = [] ∧
    (endDrawing { s with isDrawing := true }).canRedo = false ∧
    (endDrawing { s with isDrawing := true }).canUndo
      = decide (1 < s.history.length + 1) ∧
    (s.history.head? = some s.raster →
      (endDrawing { s with isDrawing := true }).history.head? = s.history.head?) ∧
    (s.history ≠ [] → (endDrawing { s with isDrawing := true }).canUndo = true) ∧
    redo (endDrawing { s with isDrawing := true })
      = endDrawing { s with isDrawing := true } := by
  refine ⟨rfl, rfl, rfl, rfl, ?_, ?_, ?_, redo_of_nil _ rfl⟩
  · simp [endDrawing, saveState]
  · intro hsync
    exact hsync.symm
  · intro hne
    rcases hh : s.history with _ | ⟨a, l⟩
    · exact absurd hh hne
    · simp [endDrawing, saveState, hh]

/-- Witness for C10: a pixel-preserving tap committed on a fresh canvas
turns canUndo on. -/
theorem endDrawing_commits_witness :
    (initState 1 1).history ≠ [] ∧
    (endDrawing { initState 1 1 with isDrawing := true }).canUndo = true :=
  ⟨by decide, (endDrawing_commits (initState 1 1)).2.2.2.2.2.2.1 (by decide)⟩

/-! ### Coordinate mapper claims -/

/-- C7: for every pointer sample with a mounted, positively-sized canvas,
getCoords returns exactly
x = (clientX - rectLeft) * (nativeWidth / rectWidth) and analogously y,
as a pure function of the event position, the bounding rectangle and the
native canvas dimensions. -/
theorem getCoords_formula (env : CanvasEnv) (cx cy : ℚ)
    (hm : env.mounted = true) (_hw : 0 < env.rectWidth) (_hh : 0 < env.rectHeight) :
    getCoords env cx cy
      = some ((cx - env.rectLeft) * (env.width / env.rectWidth),
              (cy - env.rectTop) * (env.height / env.rectHeight)) := by
  simp [getCoords, hm]

/-- Witness for C7 on a concrete displayed rectangle at half the native
resolution. -/
theorem getCoords_formula_witness :
    (⟨true, 1, 2, 100, 50, 200, 100⟩ : CanvasEnv).mounted = true ∧
    (0 : ℚ) < (⟨true, 1, 2, 100, 50, 200, 100⟩ : CanvasEnv).rectWidth ∧
    (0 : ℚ) < (⟨true, 1, 2, 100, 50, 200, 100⟩ : CanvasEnv).rectHeight ∧
    getCoords ⟨true, 1, 2, 100, 50, 200, 100⟩ 11 12
      = some ((11 - 1) * (200 / 100), (12 - 2) * (100 / 50)) :=
  ⟨rfl, by decide, by decide,
   getCoords_formula ⟨true, 1, 2, 100, 50, 200, 100⟩ 11 12 rfl (by decide) (by decide)⟩

/-- C6 counterexample: a pointer sample on a mounted canvas of zero displayed
size is NOT skipped — the mapper still returns a coordinate and
pointer-down records a stroke point. -/
theorem zero_size_sample_not_skipped :
    getCoords ⟨true, 0, 0, 0, 0, 100, 100⟩ 10 10 ≠ none ∧
    (startDrawing id ⟨true, 0, 0, 0, 0, 100, 100⟩ 10 10 (initState 1 1)).lastPoint
      ≠ none := by
  decide

/-- C6 amended: the mapper fails exactly when the canvas is unmounted, in
which case the sample is silently skipped — no stroke point is recorded
and no pixel is touched.  A mounted canvas returns a coordinate even at
zero displayed size. -/
theorem getCoords_fails_iff_unmounted (env : CanvasEnv) (cx cy : ℚ)
    (f : ImageData → ImageData) (s : MaskState) :
    (getCoords env cx cy = none ↔ env.mounted = false) ∧
    (env.mounted = false →
      drawEvent f env cx cy s = s ∧
      (startDrawing f env cx cy s).lastPoint = none ∧
      (startDrawing f env cx cy s).raster = s.raster) := by
  constructor
  · cases hm : env.mounted <;> simp [getCoords, hm]
  · intro hm
    have hg : getCoords env cx cy = none := by simp [getCoords, hm]
    refine ⟨?_, ?_, ?_⟩
    · unfold drawEvent
      split
      · rfl
      · rw [hg]
    · unfold startDrawing drawEvent
      rw [hg]
      rfl
    · unfold startDrawing drawEvent
      rw [hg]
      rfl

/-- Witness for C6 (amended) on an unmounted canvas. -/
theorem getCoords_fails_iff_unmounted_witness :
    (⟨false, 0, 0, 100, 100, 100, 100⟩ : CanvasEnv).mounted = false ∧
    drawEvent id ⟨false, 0, 0, 100, 100, 100, 100⟩ 5 5 (initState 1 1)
      = initState 1 1 :=
  ⟨rfl, ((getCoords_fails_iff_unmounted ⟨false, 0, 0, 100, 100, 100, 100⟩ 5 5 id
      (initState 1 1)).2 rfl).1⟩

/-! ### Stroke geometry claims -/

/-- C3 (behaviour of the code at the claimed input): a zero-movement stroke
reaches `draw` with currentPoint = lastPoint, so the loop bound
`i < distance` fails at distance 0 and NO dab is stamped — contradicting
the claim and the source's own comment "Draw a single point on click" —
while endDrawing still pushes exactly one new snapshot. -/
theorem tap_stroke_behaviour (p : ℝ × ℝ) (b : ℝ) (s : MaskState) :
    drawDabs p p b = [] ∧
    (endDrawing { s with isDrawing := true }).history.length
      = s.history.length + 1 := by
  constructor
  · simp [drawDabs, dabTs]
  · rfl

/-- The dab source alpha is never negative. -/
theorem gradientAlpha_nonneg (b h d : ℝ) : 0 ≤ gradientAlpha b h d := by
  unfold gradientAlpha
  split_ifs with h1 h2
  · norm_num
  · rw [not_le] at h1
    apply div_nonneg <;> linarith
  · norm_num

/-- The dab source alpha never exceeds one. -/
theorem gradientAlpha_le_one (b h d : ℝ) : gradientAlpha b h d ≤ 1 := by
  unfold gradientAlpha
  split_ifs with h1 h2
  · norm_num
  · rw [not_le] at h1
    rw [div_le_one (by linarith)]
    linarith
  · norm_num

/-- Inside the dab's radius the source alpha is strictly positive. -/
theorem gradientAlpha_pos (b h d : ℝ) (hd : d < b / 2) :
    0 < gradientAlpha b h d := by
  unfold gradientAlpha
  split_ifs with h1
  · norm_num
  · rw [not_le] at h1
    apply div_pos <;> linarith

/-- C9: an erase-mode stroke (each dab composited with destination-out
semantics) never increases a pixel's alpha, and strictly reduces it on
any previously painted pixel lying inside some dab's radius. -/
theorem erase_strictly_reduces_alpha (b hard a : ℝ) (dists : List ℝ)
    (ha : 0 ≤ a) :
    eraseStrokeAlpha b hard dists a ≤ a ∧
    (0 < a → (∃ dist ∈ dists, dist < b / 2) →
      eraseStrokeAlpha b hard dists a < a) := by
  induction dists generalizing a with
  | nil => exact ⟨le_refl a, fun _ hex => absurd hex (by simp)⟩
  | cons x xs ih =>
    have hfold : eraseStrokeAlpha b hard (x :: xs) a
        = eraseStrokeAlpha b hard xs (destOut a (gradientAlpha b hard x)) := rfl
    have hs0 : 0 ≤ gradientAlpha b hard x := gradientAlpha_nonneg b hard x
    have hs1 : gradientAlpha b hard x ≤ 1 := gradientAlpha_le_one b hard x
    have ha1 : 0 ≤ destOut a (gradientAlpha b hard x) :=
      mul_nonneg ha (by linarith)
    have hle : destOut a (gradientAlpha b hard x) ≤ a := by
      unfold destOut
      nlinarith
    obtain ⟨ihle, ihlt⟩ := ih (destOut a (gradientAlpha b hard x)) ha1
    rw [hfold]
    refine ⟨le_trans ihle hle, ?_⟩
    intro hapos hex
    rcases hex with ⟨dist, hmem, hdist⟩
    rcases List.mem_cons.mp hmem with rfl | hmem'
    · have hsp : 0 < gradientAlpha b hard dist := gradientAlpha_pos b hard dist hdist
      have hlt : destOut a (gradientAlpha b hard dist) < a := by
        unfold destOut
        nlinarith
      exact lt_of_le_of_lt ihle hlt
    · rcases lt_or_eq_of_le ha1 with hpos | heq
      · exact lt_of_lt_of_le (ihlt hpos ⟨dist, hmem', hdist⟩) hle
      · calc eraseStrokeAlpha b hard xs (destOut a (gradientAlpha b hard x))
            ≤ destOut a (gradientAlpha b hard x) := ihle
          _ = 0 := heq.symm
          _ < a := hapos

/-- Witness for C9: one erase dab of size 50, hardness 100, centred on a
fully painted pixel, strictly reduces its alpha. -/
theorem erase_strictly_reduces_alpha_witness :
    (0 : ℝ) ≤ 1 ∧ eraseStrokeAlpha 50 100 [0] 1 ≤ 1 ∧ (0 : ℝ) < 1 ∧
    eraseStrokeAlpha 50 100 [0] 1 < 1 :=
  ⟨by norm_num,
   (erase_strictly_reduces_alpha 50 100 1 [0] (by norm_num)).1,
   by norm_num,
   (erase_strictly_reduces_alpha 50 100 1 [0] (by norm_num)).2 (by norm_num)
     ⟨0, by simp, by norm_num⟩⟩

/-- The values taken by the loop counter of
`for (let i = 0; i < distance; i += step)`: position j holds `j * step`
exactly when `j * step < distance`, and the list ends there. -/
theorem dabTs_getElem (d st : ℝ) (hst : 0 < st) (j : ℕ) :
    (dabTs d st)[j]? = if (j : ℝ) * st < d then some ((j : ℝ) * st) else none := by
  unfold dabTs
  rw [List.getElem?_map]
  rcases lt_or_ge j ⌈d / st⌉₊ with hj | hj
  · rw [List.getElem?_range hj]
    have hx : (j : ℝ) * st < d := (lt_div_iff₀ hst).mp (Nat.lt_ceil.mp hj)
    rw [if_pos hx]
    rfl
  · rw [List.getElem?_eq_none (by simpa using hj)]
    have hx : ¬((j : ℝ) * st < d) := by
      intro hlt
      exact absurd (Nat.lt_ceil.mpr ((lt_div_iff₀ hst).mpr hlt)) (not_lt.mpr hj)
    rw [if_neg hx]
    rfl

/-- C8 counterexample: at brushSize 28 (inside the UI's 10..200 range) the
increment is min(28/4, 6) = 6 pixels, strictly finer (smaller) than
brushSize/4 = 7 — refuting the gloss "never finer than brushSize/4". -/
theorem strokeStep_finer_than_quarter :
    strokeStep 28 = 6 ∧ strokeStep 28 < 28 / 4 := by
  unfold strokeStep
  constructor <;> norm_num [min_def]

/-- C8 amended: dabs are placed along the segment from the last point to the
new point at fixed increments step = min(brushSize/4, 6) — never coarser
than 6px and never coarser than brushSize/4 (so finer than brushSize/4
once the brush exceeds 24px) — one dab per increment, starting at the
last point, stepping while the travelled distance is less than the
segment's Euclidean length. -/
theorem draw_dab_placement (lx ly cx cy b : ℝ)
    (hne : ¬(cx = lx ∧ cy = ly)) (hb : 0 < b) :
    strokeStep b ≤ 6 ∧ strokeStep b ≤ b / 4 ∧ 0 < strokeStep b ∧
    (drawDabs (lx, ly) (cx, cy) b)[0]? = some (lx, ly) ∧
    (∀ j : ℕ, (j : ℝ) * strokeStep b < Real.sqrt ((cx - lx) ^ 2 + (cy - ly) ^ 2) →
      (drawDabs (lx, ly) (cx, cy) b)[j]? = some
        (lx + (cx - lx) / Real.sqrt ((cx - lx) ^ 2 + (cy - ly) ^ 2)
            * ((j : ℝ) * strokeStep b),
         ly + (cy - ly) / Real.sqrt ((cx - lx) ^ 2 + (cy - ly) ^ 2)
            * ((j : ℝ) * strokeStep b))) ∧
    (∀ j : ℕ, Real.sqrt ((cx - lx) ^ 2 + (cy - ly) ^ 2) ≤ (j : ℝ) * strokeStep b →
      (drawDabs (lx, ly) (cx, cy) b)[j]? = none) := by
  have hst : 0 < strokeStep b := by
    unfold strokeStep
    exact lt_min (by positivity) (by norm_num)
  have hz : ((⟨cx - lx, cy - ly⟩ : ℂ)) ≠ 0 := by
    intro h0
    rw [Complex.ext_iff] at h0
    exact hne ⟨sub_eq_zero.mp h0.1, sub_eq_zero.mp h0.2⟩
  have hsum : 0 < (cx - lx) ^ 2 + (cy - ly) ^ 2 := by
    rcases not_and_or.mp hne with h | h
    · have h2 : 0 < (cx - lx) ^ 2 := sq_pos_of_ne_zero (sub_ne_zero.mpr h)
      nlinarith [sq_nonneg (cy - ly)]
    · have h2 : 0 < (cy - ly) ^ 2 := sq_pos_of_ne_zero (sub_ne_zero.mpr h)
      nlinarith [sq_nonneg (cx - lx)]
  have hd : 0 < Real.sqrt ((cx - lx) ^ 2 + (cy - ly) ^ 2) := Real.sqrt_pos.mpr hsum
  have habs : Complex.abs ⟨cx - lx, cy - ly⟩
      = Real.sqrt ((cx - lx) ^ 2 + (cy - ly) ^ 2) := by
    rw [Complex.abs_apply, Complex.normSq_mk]
    congr 1
    ring
  have hcos : Real.cos (Complex.arg ⟨cx - lx, cy - ly⟩)
      = (cx - lx) / Real.sqrt ((cx - lx) ^ 2 + (cy - ly) ^ 2) := by
    rw [Complex.cos_arg hz, habs]
  have hsin : Real.sin (Complex.arg ⟨cx - lx, cy - ly⟩)
      = (cy - ly) / Real.sqrt ((cx - lx) ^ 2 + (cy - ly) ^ 2) := by
    rw [Complex.sin_arg, habs]
  have hunf : drawDabs (lx, ly) (cx, cy) b
      = (dabTs (Real.sqrt ((cx - lx) ^ 2 + (cy - ly) ^ 2)) (strokeStep b)).map
          (fun i => (lx + Real.cos (Complex.arg ⟨cx - lx, cy - ly⟩) * i,
                     ly + Real.sin (Complex.arg ⟨cx - lx, cy - ly⟩) * i)) := rfl
  have hgen : ∀ j : ℕ, (drawDabs (lx, ly) (cx, cy) b)[j]?
      = if (j : ℝ) * strokeStep b < Real.sqrt ((cx - lx) ^ 2 + (cy - ly) ^ 2) then
          some (lx + (cx - lx) / Real.sqrt ((cx - lx) ^ 2 + (cy - ly) ^ 2)
                  * ((j : ℝ) * strokeStep b),
                ly + (cy - ly) / Real.sqrt ((cx - lx) ^ 2 + (cy - ly) ^ 2)
                  * ((j : ℝ) * strokeStep b))
        else none := by
    intro j
    rw [hunf, List.getElem?_map, dabTs_getElem _ _ hst j]
    split_ifs with hc
    · simp [hcos, hsin]
    · rfl
  refine ⟨?_, ?_, hst, ?_, ?_, ?_⟩
  · unfold strokeStep
    exact min_le_right _ _
  · unfold strokeStep
    exact min_le_left _ _
  · have h0 := hgen 0
    rw [if_pos (by simpa using hd)] at h0
    rw [h0]
    norm_num
  · intro j hj
    rw [hgen j, if_pos hj]
  · intro j hj
    rw [hgen j, if_neg (not_lt.mpr hj)]

/-- Witness for C8 (amended): a stroke from (0,0) to (3,4) with brush size 8
stamps its first dab at the last point (0,0). -/
theorem draw_dab_placement_witness :
    ¬((3 : ℝ) = 0 ∧ (4 : ℝ) = 0) ∧ (0 : ℝ) < 8 ∧
    (drawDabs ((0 : ℝ), (0 : ℝ)) (3, 4) 8)[0]? = some (0, 0) :=
  ⟨by norm_num, by norm_num,
   (draw_dab_placement 0 0 3 4 8 (by norm_num) (by norm_num)).2.2.2.1⟩

end Vixel
